import Mathlib

/-!
Shallow embedding of the core pipeline of `govee_h5075_influx.py`
(decode → compose → encode → batch → deliver), with theorems settling the
frozen claims about it.

Modelling conventions:
* Python `bytes` become `List ℕ`; where a claim needs it, a hypothesis
  `∀ x ∈ p, x < 256` records that each byte is below 256.
* Python `float` arithmetic in the decoder is embedded in `ℚ`: the decoder
  only divides by 10000 and 10, negates, and takes `%`, all exact.
* Python `str` becomes Lean `String`; the char-level workhorses operate on
  `List Char`.
* Python dicts (insertion-ordered, unique keys, later assignment wins and
  keeps the original position) become association lists updated by
  `dictInsert`.
-/

/-- `int.from_bytes(l, "big", signed=False)`: big-endian composition of a
byte list into a natural number. -/
def beBytes (l : List ℕ) : ℕ := l.foldl (fun a b => a * 256 + b) 0

/-- Embedding of `decode_packed_24` (govee_h5075_influx.py lines 37–54):
`raw24` is the big-endian 24-bit integer from `payload[1:4]`; bit 23 is a
sign flag for the temperature; after clearing it, `temp_c = raw24/10000`,
`rh = (raw24 % 1000)/10`; `payload[4]` is the battery, treated as absent
when above 100.  Returns `none` exactly on payloads shorter than 5 bytes. -/
def decode_packed_24 (payload : List ℕ) : Option (ℚ × ℚ × Option ℕ) :=
  if payload.length < 5 then none
  else
    let raw24 := beBytes ((payload.drop 1).take 3)
    let is_negative := (raw24 &&& 0x800000) != 0
    let raw := raw24 &&& 0x7FFFFF
    let temp_c : ℚ := (raw : ℚ) / 10000
    let rh : ℚ := ((raw % 1000 : ℕ) : ℚ) / 10
    let batt : Option ℕ :=
      if payload.getD 4 0 ≤ 100 then some (payload.getD 4 0) else none
    some (if is_negative then -temp_c else temp_c, rh, batt)

lemma decode_packed_24_cons (a b c d e : ℕ) (rest : List ℕ) :
    decode_packed_24 (a :: b :: c :: d :: e :: rest) =
      some
        (if (b * 65536 + c * 256 + d) &&& 0x800000 != 0 then
            -((((b * 65536 + c * 256 + d) &&& 0x7FFFFF : ℕ) : ℚ) / 10000)
          else (((b * 65536 + c * 256 + d) &&& 0x7FFFFF : ℕ) : ℚ) / 10000,
         ((((b * 65536 + c * 256 + d) &&& 0x7FFFFF) % 1000 : ℕ) : ℚ) / 10,
         if e ≤ 100 then some e else none) := by
  have hlen : ¬ (a :: b :: c :: d :: e :: rest).length < 5 := by
    simp [List.length_cons]
  have hbe : beBytes [b, c, d] = b * 65536 + c * 256 + d := by
    simp [beBytes]; ring
  simp only [decode_packed_24, hlen, if_false, List.drop, List.take, hbe,
    List.getD_cons_succ, List.getD_cons_zero]

/-- The mask by `0x7FFFFF` is reduction mod `2^23`. -/
lemma land_7FFFFF (n : ℕ) : n &&& 0x7FFFFF = n % 8388608 := by
  have h : (0x7FFFFF : ℕ) = 2 ^ 23 - 1 := by norm_num
  have := Nat.and_pow_two_sub_one_eq_mod n 23
  rw [h]
  simpa using this

/-- The test against `0x800000` reads bit 23. -/
lemma land_800000_ne (n : ℕ) : ((n &&& 0x800000) != 0) = (n / 8388608 % 2 == 1) := by
  have h : (0x800000 : ℕ) = 2 ^ 23 := by norm_num
  rw [h, Nat.and_two_pow]
  rcases hb : n.testBit 23 with _ | _
  · rw [Nat.testBit_to_div_mod] at hb
    simp only [decide_eq_false_iff_not] at hb
    have : (2 : ℕ) ^ 23 = 8388608 := by norm_num
    simp [this] at hb ⊢
    omega
  · rw [Nat.testBit_to_div_mod] at hb
    simp only [decide_eq_true_eq] at hb
    have : (2 : ℕ) ^ 23 = 8388608 := by norm_num
    simp [this] at hb ⊢
    omega

/-- C5: the decoder is total and `none` exactly on short payloads:
for every byte list it returns `none` iff the length is below 5, and every
payload of length at least 5 yields a (temperature, humidity, battery)
triple. -/
theorem decode_total_none_iff_short :
    (∀ p : List ℕ, decode_packed_24 p = none ↔ p.length < 5) ∧
    (∀ p : List ℕ, 5 ≤ p.length →
      ∃ t rh batt, decode_packed_24 p = some (t, rh, batt)) := by
  constructor
  · intro p
    by_cases h : p.length < 5 <;> simp [decode_packed_24, h]
  · intro p hp
    have h : ¬ p.length < 5 := by omega
    simp only [decode_packed_24, h, if_false]
    exact ⟨_, _, _, rfl⟩

theorem decode_total_none_iff_short_witness :
    5 ≤ ([0, 1, 63, 145, 100] : List ℕ).length ∧
    ∃ t rh batt, decode_packed_24 [0, 1, 63, 145, 100] = some (t, rh, batt) :=
  ⟨by decide, decode_total_none_iff_short.2 [0, 1, 63, 145, 100] (by decide)⟩

/-- C9: a battery byte above 100 yields a reading with no battery value
(not a decode failure), and temperature and humidity do not depend on the
battery byte at all: replacing byte 4 with any value leaves them unchanged. -/
theorem decode_battery_above_100 (p : List ℕ) (hlen : 5 ≤ p.length)
    (hbatt : 100 < p.getD 4 0) :
    ∃ t rh, decode_packed_24 p = some (t, rh, none) ∧
      ∀ b : ℕ, decode_packed_24 (p.set 4 b) =
        some (t, rh, if b ≤ 100 then some b else none) := by
  match p, hlen with
  | a :: b :: c :: d :: e :: rest, _ =>
    simp only [List.getD_cons_succ, List.getD_cons_zero] at hbatt
    have he : ¬ e ≤ 100 := by omega
    have h1 := decode_packed_24_cons a b c d e rest
    rw [if_neg he] at h1
    exact ⟨_, _, h1, fun b' => decode_packed_24_cons a b c d b' rest⟩

theorem decode_battery_above_100_witness :
    100 < ([0, 1, 63, 145, 150] : List ℕ).getD 4 0 ∧
    ∃ t rh, decode_packed_24 [0, 1, 63, 145, 150] = some (t, rh, none) ∧
      ∀ b : ℕ, decode_packed_24 ([0, 1, 63, 145, 150].set 4 b) =
        some (t, rh, if b ≤ 100 then some b else none) :=
  ⟨by decide, decode_battery_above_100 [0, 1, 63, 145, 150] (by decide) (by decide)⟩

/-- C3: bit 23 (mask `0x800000`) of the big-endian 24-bit integer from bytes
1–3 is a sign flag for the temperature only: with the bit set the decoded
temperature is the negation of the magnitude `(raw24 &&& 0x7FFFFF)/10000`,
while the humidity `((raw24 &&& 0x7FFFFF) % 1000)/10` is non-negative and
identical to the humidity of the same payload with the sign bit cleared
(byte 1 masked by `0x7F`); the battery is also unchanged. -/
theorem decode_sign_bit (p : List ℕ) (hlen : 5 ≤ p.length)
    (hbytes : ∀ x ∈ p, x < 256)
    (hsign : beBytes ((p.drop 1).take 3) &&& 0x800000 ≠ 0) :
    ∃ batt,
      decode_packed_24 p =
        some (-((((beBytes ((p.drop 1).take 3) &&& 0x7FFFFF) : ℕ) : ℚ) / 10000),
              (((beBytes ((p.drop 1).take 3) &&& 0x7FFFFF) % 1000 : ℕ) : ℚ) / 10,
              batt) ∧
      decode_packed_24 (p.set 1 (p.getD 1 0 &&& 0x7F)) =
        some (((((beBytes ((p.drop 1).take 3) &&& 0x7FFFFF) : ℕ) : ℚ) / 10000),
              (((beBytes ((p.drop 1).take 3) &&& 0x7FFFFF) % 1000 : ℕ) : ℚ) / 10,
              batt) ∧
      0 ≤ (((beBytes ((p.drop 1).take 3) &&& 0x7FFFFF) % 1000 : ℕ) : ℚ) / 10 := by
  match p, hlen, hbytes, hsign with
  | a :: b :: c :: d :: e :: rest, _, hbytes, hsign =>
    have hb : b < 256 := hbytes b (by simp)
    have hc : c < 256 := hbytes c (by simp)
    have hd : d < 256 := hbytes d (by simp)
    have hbe : beBytes (((a :: b :: c :: d :: e :: rest).drop 1).take 3)
        = b * 65536 + c * 256 + d := by
      simp [beBytes]; ring
    rw [hbe] at hsign ⊢
    have h7F : b &&& 0x7F = b % 128 := by
      have h : (0x7F : ℕ) = 2 ^ 7 - 1 := by norm_num
      have := Nat.and_pow_two_sub_one_eq_mod b 7
      rw [h]
      simpa using this
    have hsetform :
        (a :: b :: c :: d :: e :: rest).set 1
            ((a :: b :: c :: d :: e :: rest).getD 1 0 &&& 0x7F)
          = a :: (b &&& 0x7F) :: c :: d :: e :: rest := rfl
    rw [hsetform, decode_packed_24_cons, decode_packed_24_cons]
    have hcond1 : (((b * 65536 + c * 256 + d) &&& 0x800000) != 0) = true := by
      simpa [bne_iff_ne] using hsign
    have hcond2 : ((((b &&& 0x7F) * 65536 + c * 256 + d) &&& 0x800000) != 0) = false := by
      rw [land_800000_ne]
      have hlt : (b &&& 0x7F) * 65536 + c * 256 + d < 8388608 := by
        rw [h7F]; omega
      have hz : ((b &&& 0x7F) * 65536 + c * 256 + d) / 8388608 = 0 :=
        Nat.div_eq_of_lt hlt
      simp [hz]
    have hmask : ((b &&& 0x7F) * 65536 + c * 256 + d) &&& 0x7FFFFF
        = (b * 65536 + c * 256 + d) &&& 0x7FFFFF := by
      rw [land_7FFFFF, land_7FFFFF, h7F]
      omega
    rw [hmask]
    simp only [hcond1, hcond2, if_true, if_false, Bool.false_eq_true]
    exact ⟨_, rfl, rfl, by positivity⟩

theorem decode_sign_bit_witness :
    beBytes ((([0, 129, 63, 145, 100] : List ℕ).drop 1).take 3) &&& 0x800000 ≠ 0 ∧
    ∃ batt,
      decode_packed_24 [0, 129, 63, 145, 100] =
        some (-((((beBytes ((([0, 129, 63, 145, 100] : List ℕ).drop 1).take 3)
                    &&& 0x7FFFFF) : ℕ) : ℚ) / 10000),
              (((beBytes ((([0, 129, 63, 145, 100] : List ℕ).drop 1).take 3)
                    &&& 0x7FFFFF) % 1000 : ℕ) : ℚ) / 10,
              batt) ∧
      decode_packed_24 (([0, 129, 63, 145, 100] : List ℕ).set 1
          (([0, 129, 63, 145, 100] : List ℕ).getD 1 0 &&& 0x7F)) =
        some (((((beBytes ((([0, 129, 63, 145, 100] : List ℕ).drop 1).take 3)
                    &&& 0x7FFFFF) : ℕ) : ℚ) / 10000),
              (((beBytes ((([0, 129, 63, 145, 100] : List ℕ).drop 1).take 3)
                    &&& 0x7FFFFF) % 1000 : ℕ) : ℚ) / 10,
              batt) ∧
      0 ≤ (((beBytes ((([0, 129, 63, 145, 100] : List ℕ).drop 1).take 3)
                    &&& 0x7FFFFF) % 1000 : ℕ) : ℚ) / 10 :=
  ⟨by decide, decode_sign_bit [0, 129, 63, 145, 100] (by decide) (by decide) (by decide)⟩

/-- One pass of Python `str.replace(pat, repl)` for a single-character
pattern: occurrences of a one-character pattern are exactly the matching
characters, so the left-to-right non-overlapping scan is the character-wise
expansion. -/
def replaceChar (pat : Char) (repl : List Char) (s : List Char) : List Char :=
  s.flatMap (fun c => if c = pat then repl else [c])

/-- Embedding of `lp_escape` (govee_h5075_influx.py lines 59–60) on char
lists: the four replaces in source order — backslash, then space, then
comma, then equals sign. -/
def escapeChars (s : List Char) : List Char :=
  replaceChar '=' ['\\', '=']
    (replaceChar ',' ['\\', ',']
      (replaceChar ' ' ['\\', ' ']
        (replaceChar '\\' ['\\', '\\'] s)))

/-- `lp_escape` on strings. -/
def lp_escape (s : String) : String := String.mk (escapeChars s.data)

/-- Character-wise view of the escaping: each of the four special
characters is emitted with a single preceding backslash, every other
character passes through unchanged. -/
def escChar (c : Char) : List Char :=
  if c = '\\' ∨ c = ' ' ∨ c = ',' ∨ c = '=' then ['\\', c] else [c]

/-- Greedy left-to-right inverse of the escaping: a backslash consumes the
following character literally. -/
def unescapeChars : List Char → List Char
  | [] => []
  | [c] => [c]
  | c :: d :: rest =>
    if c = '\\' then d :: unescapeChars rest
    else c :: unescapeChars (d :: rest)

/-- The same inverse on strings. -/
def lp_unescape (s : String) : String := String.mk (unescapeChars s.data)

lemma replaceChar_append (pat : Char) (repl : List Char) (s t : List Char) :
    replaceChar pat repl (s ++ t) = replaceChar pat repl s ++ replaceChar pat repl t := by
  simp [replaceChar]

lemma escapeChars_append (s t : List Char) :
    escapeChars (s ++ t) = escapeChars s ++ escapeChars t := by
  simp [escapeChars, replaceChar_append]

lemma escapeChars_singleton (c : Char) : escapeChars [c] = escChar c := by
  by_cases h1 : c = '\\'
  · subst h1; rfl
  · by_cases h2 : c = ' '
    · subst h2; rfl
    · by_cases h3 : c = ','
      · subst h3; rfl
      · by_cases h4 : c = '='
        · subst h4; rfl
        · have h : ¬ (c = '\\' ∨ c = ' ' ∨ c = ',' ∨ c = '=') := by
            simp [h1, h2, h3, h4]
          simp [escapeChars, replaceChar, escChar, h1, h2, h3, h4, h]

lemma escapeChars_cons (c : Char) (s : List Char) :
    escapeChars (c :: s) = escChar c ++ escapeChars s := by
  have : (c :: s) = [c] ++ s := rfl
  rw [this, escapeChars_append, escapeChars_singleton]

lemma unescape_escape (s : List Char) : unescapeChars (escapeChars s) = s := by
  induction s with
  | nil => rfl
  | cons c s ih =>
    rw [escapeChars_cons]
    by_cases h : c = '\\' ∨ c = ' ' ∨ c = ',' ∨ c = '='
    · rw [escChar, if_pos h]
      simpa [unescapeChars] using ih
    · rw [escChar, if_neg h]
      have hc : c ≠ '\\' := fun hh => h (Or.inl hh)
      cases hes : escapeChars s with
      | nil =>
        rw [hes] at ih
        simp only [List.singleton_append]
        simp [unescapeChars, ← ih]
      | cons d t =>
        rw [hes] at ih
        simp only [List.singleton_append]
        simp [unescapeChars, hc, ih]

/-- C8: the escaping emits every backslash, space, comma and equals sign
with a single preceding backslash (character-wise view), the original
string is recovered by undoing the substitutions (greedy right inverse),
and consequently `lp_escape` is injective. -/
theorem lp_escape_reversible :
    (∀ s : List Char, escapeChars s = s.flatMap escChar) ∧
    (∀ s : String, lp_unescape (lp_escape s) = s) ∧
    Function.Injective lp_escape := by
  refine ⟨?_, ?_, ?_⟩
  · intro s
    induction s with
    | nil => rfl
    | cons c s ih => rw [escapeChars_cons, List.flatMap_cons, ih]
  · intro s
    show String.mk (unescapeChars (escapeChars s.data)) = s
    rw [unescape_escape]
  · intro a b hab
    have h1 : escapeChars a.data = escapeChars b.data := congrArg String.data hab
    have h2 : a.data = b.data := by
      rw [← unescape_escape a.data, ← unescape_escape b.data, h1]
    cases a; cases b; exact congrArg String.mk h2

theorem lp_escape_reversible_witness : ("a b,c=d" : String) = "a b,c=d" :=
  lp_escape_reversible.2.2 rfl

/-- A Python value stored in the `fields` dict of `to_line_protocol`:
`None`, `bool`, `int`, `float` — a rational together with a finiteness flag,
the non-finite case standing for `NaN`/`±Infinity` whose numeric payload is
irrelevant — or `str` (the final `else` branch of the source). -/
inductive FieldValue
  | none
  | b (x : Bool)
  | i (x : ℤ)
  | f (finite : Bool) (x : ℚ)
  | s (x : String)
deriving DecidableEq

/-- Stand-in for Python's decimal rendering of a finite float in
`f-strings`; the claims never depend on the digits, only on which fields
are emitted, so the exact digit string is abstracted by the canonical
rational rendering. -/
def floatText (q : ℚ) : String := toString q

/-- `str(v).replace('"', '\\"')`: inner double quotes get a backslash. -/
def escQuotes (s : String) : String :=
  String.mk (s.data.flatMap (fun c => if c = '"' then ['\\', '"'] else [c]))

/-- The body of the field loop of `to_line_protocol` (lines 64–76): `None`
and non-finite floats are dropped, booleans render as `true`/`false`, ints
get the `i` suffix, strings are double-quoted with inner quotes escaped.
The field key `k` is used verbatim (no `lp_escape`). -/
def fieldText (kv : String × FieldValue) : Option String :=
  match kv.2 with
  | .none => Option.none
  | .b x => some (kv.1 ++ "=" ++ (if x then "true" else "false"))
  | .i x => some (kv.1 ++ "=" ++ toString x ++ "i")
  | .f finite x => if finite then some (kv.1 ++ "=" ++ floatText x) else Option.none
  | .s x => some (kv.1 ++ "=\"" ++ escQuotes x ++ "\"")

/-- One tag of the tag comprehension (line 63): tags with value `None` are
skipped, otherwise both key and value are escaped. -/
def tagText (kv : String × Option String) : Option String :=
  kv.2.map (fun v => lp_escape kv.1 ++ "=" ++ lp_escape v)

/-- Python `sep.join(parts)`. -/
def pyJoin (sep : String) : List String → String
  | [] => ""
  | [x] => x
  | x :: y :: rest => x ++ sep ++ pyJoin sep (y :: rest)

/-- Embedding of `to_line_protocol` (govee_h5075_influx.py lines 62–80):
tag part from the comprehension, field parts from the loop, empty string
when no field survives, otherwise
`measurement[,tags] fields timestamp` with the measurement escaped. -/
def to_line_protocol (measurement : String) (tags : List (String × Option String))
    (fields : List (String × FieldValue)) (ts_ns : ℤ) : String :=
  let tpart := pyJoin "," (tags.filterMap tagText)
  let fparts := fields.filterMap fieldText
  if fparts = [] then ""
  else
    let tagsect := if tpart = "" then "" else "," ++ tpart
    lp_escape measurement ++ tagsect ++ " " ++ pyJoin "," fparts ++ " " ++ toString ts_ns

/-- The field rendering as claim C1 describes it: identical to `fieldText`
except that the field key is passed through the escaping substitution. -/
def fieldTextEscKey (kv : String × FieldValue) : Option String :=
  match kv.2 with
  | .none => Option.none
  | .b x => some (lp_escape kv.1 ++ "=" ++ (if x then "true" else "false"))
  | .i x => some (lp_escape kv.1 ++ "=" ++ toString x ++ "i")
  | .f finite x =>
    if finite then some (lp_escape kv.1 ++ "=" ++ floatText x) else Option.none
  | .s x => some (lp_escape kv.1 ++ "=\"" ++ escQuotes x ++ "\"")

/-- The encoder as claim C1 states it — escaping applied to the measurement
name, tag keys, tag values AND field keys; kept only to be compared with
the source encoder. -/
def to_line_protocol_esc_fieldkeys (measurement : String)
    (tags : List (String × Option String)) (fields : List (String × FieldValue))
    (ts_ns : ℤ) : String :=
  let tpart := pyJoin "," (tags.filterMap tagText)
  let fparts := fields.filterMap fieldTextEscKey
  if fparts = [] then ""
  else
    let tagsect := if tpart = "" then "" else "," ++ tpart
    lp_escape measurement ++ tagsect ++ " " ++ pyJoin "," fparts ++ " " ++ toString ts_ns

/-- C1 counterexample: on a field key containing a space the source encoder
emits the key verbatim, the claim's encoder (which escapes field keys) does
not, and the two differ — the claim is false at this input. -/
theorem to_line_protocol_field_key_not_escaped :
    to_line_protocol "m" [] [("a b", FieldValue.i 1)] 0 = "m a b=1i 0" ∧
    to_line_protocol_esc_fieldkeys "m" [] [("a b", FieldValue.i 1)] 0 = "m a\\ b=1i 0" ∧
    to_line_protocol "m" [] [("a b", FieldValue.i 1)] 0 ≠
      to_line_protocol_esc_fieldkeys "m" [] [("a b", FieldValue.i 1)] 0 := by
  refine ⟨by decide, by decide, by decide⟩

/-- Comma-joining by explicit recursion (used by the spec-worded encoder). -/
def joinComma : List String → String
  | [] => ""
  | [x] => x
  | x :: y :: rest => x ++ "," ++ joinComma (y :: rest)

/-- Tag renderings per the spec wording: skip absent values, escape key and
value. -/
def renderTags : List (String × Option String) → List String
  | [] => []
  | (_, Option.none) :: rest => renderTags rest
  | (k, some v) :: rest => (lp_escape k ++ "=" ++ lp_escape v) :: renderTags rest

/-- Field renderings per the spec wording: drop `None` and non-finite
floats, render booleans/ints/floats/strings; the key is taken verbatim. -/
def renderFields : List (String × FieldValue) → List String
  | [] => []
  | (_, FieldValue.none) :: rest => renderFields rest
  | (k, FieldValue.b x) :: rest =>
    (k ++ "=" ++ (if x then "true" else "false")) :: renderFields rest
  | (k, FieldValue.i x) :: rest => (k ++ "=" ++ toString x ++ "i") :: renderFields rest
  | (k, FieldValue.f finite x) :: rest =>
    if finite then (k ++ "=" ++ floatText x) :: renderFields rest else renderFields rest
  | (k, FieldValue.s x) :: rest =>
    (k ++ "=\"" ++ escQuotes x ++ "\"") :: renderFields rest

/-- Modelled from the amended spec sentence for C1: the escaping
substitution is applied to the measurement name and to every tag key and
tag value, while field keys are emitted verbatim; empty output exactly when
no field survives filtering. -/
def to_line_protocol_spec_amended (measurement : String)
    (tags : List (String × Option String)) (fields : List (String × FieldValue))
    (ts_ns : ℤ) : String :=
  match renderFields fields with
  | [] => ""
  | f :: fs =>
    lp_escape measurement
      ++ (match renderTags tags with
          | [] => ""
          | t :: ts => "," ++ joinComma (t :: ts))
      ++ " " ++ joinComma (f :: fs) ++ " " ++ toString ts_ns

lemma filterMap_tagText_eq (tags : List (String × Option String)) :
    tags.filterMap tagText = renderTags tags := by
  induction tags with
  | nil => rfl
  | cons kv rest ih =>
    obtain ⟨k, v⟩ := kv
    cases v <;> simp [tagText, renderTags, ih]

lemma filterMap_fieldText_eq (fields : List (String × FieldValue)) :
    fields.filterMap fieldText = renderFields fields := by
  induction fields with
  | nil => rfl
  | cons kv rest ih =>
    obtain ⟨k, v⟩ := kv
    cases v with
    | none => simp [fieldText, renderFields, ih]
    | b x => simp [fieldText, renderFields, ih]
    | i x => simp [fieldText, renderFields, ih]
    | f finite x =>
      cases finite <;> simp [fieldText, renderFields, ih]
    | s x => simp [fieldText, renderFields, ih]

lemma pyJoin_comma_eq_joinComma (l : List String) : pyJoin "," l = joinComma l := by
  induction l with
  | nil => rfl
  | cons x rest ih =>
    cases rest with
    | nil => rfl
    | cons y t =>
      rw [pyJoin, joinComma, ih]

lemma mem_renderTags_ne_empty (tags : List (String × Option String)) :
    ∀ x ∈ renderTags tags, x ≠ "" := by
  induction tags with
  | nil => simp [renderTags]
  | cons kv rest ih =>
    obtain ⟨k, v⟩ := kv
    cases v with
    | none => simpa [renderTags] using ih
    | some v =>
      intro x hx
      rcases (by simpa [renderTags] using hx : x = lp_escape k ++ "=" ++ lp_escape v ∨ x ∈ renderTags rest) with h | h
      · subst h
        intro hempty
        have hlen := congrArg String.length hempty
        simp [String.length_append] at hlen
        exact absurd hlen.1.2 (by decide)
      · exact ih x h

lemma joinComma_cons_ne_empty (x : String) (l : List String) (hx : x ≠ "")
    (hl : ∀ y ∈ l, y ≠ "") : joinComma (x :: l) ≠ "" := by
  cases l with
  | nil => simpa [joinComma] using hx
  | cons y t =>
    rw [joinComma]
    intro hempty
    have hlen := congrArg String.length hempty
    simp [String.length_append] at hlen
    exact absurd hlen.1.2 (by decide)

/-- C1 amended: the escaping substitution is applied to the measurement
name, to every tag key and to every tag value — but not to field keys,
which are emitted verbatim: on every input the source encoder agrees with
the encoder written from that amended wording. -/
theorem to_line_protocol_escape_targets :
    ∀ (m : String) (tags : List (String × Option String))
      (fields : List (String × FieldValue)) (ts : ℤ),
      to_line_protocol m tags fields ts = to_line_protocol_spec_amended m tags fields ts := by
  intro m tags fields ts
  unfold to_line_protocol to_line_protocol_spec_amended
  simp only [filterMap_tagText_eq, filterMap_fieldText_eq, pyJoin_comma_eq_joinComma]
  cases hf : renderFields fields with
  | nil => simp
  | cons f fs =>
    rw [if_neg (by simp : ¬ (f :: fs = ([] : List String)))]
    cases ht : renderTags tags with
    | nil => simp [joinComma]
    | cons t tsl =>
      have hne : joinComma (t :: tsl) ≠ "" := by
        refine joinComma_cons_ne_empty t tsl ?_ ?_
        · exact mem_renderTags_ne_empty tags t (by rw [ht]; simp)
        · intro y hy
          exact mem_renderTags_ne_empty tags y (by rw [ht]; simp [hy])
      rw [if_neg hne]

/-- Python-dict assignment `d[k] = v` on an insertion-ordered association
list with unique keys: an existing key keeps its position and gets the new
value, a fresh key is appended. -/
def dictInsert {α : Type} (d : List (String × α)) (k : String) (v : α) :
    List (String × α) :=
  if d.any (fun p => p.1 == k) then
    d.map (fun p => if p.1 = k then (k, v) else p)
  else d ++ [(k, v)]

/-- Python `str.strip()` (no argument): drop leading and trailing
whitespace.  `Char.isWhitespace` stands in for Python's whitespace class. -/
def pyStrip (s : String) : String :=
  String.mk (((s.data.dropWhile Char.isWhitespace).reverse.dropWhile
    Char.isWhitespace).reverse)

/-- First component of `kv.split("=", 1)`: the text before the first `=`. -/
def splitEqKey (kv : String) : String :=
  String.mk (kv.data.takeWhile (fun c => c != '='))

/-- Second component of `kv.split("=", 1)`: the text after the first `=`. -/
def splitEqVal (kv : String) : String :=
  String.mk ((kv.data.dropWhile (fun c => c != '=')).drop 1)

/-- The loop body of `build_tags` (govee_h5075_influx.py lines 110–113):
an entry with `=` is split at the first `=` and both halves stripped; an
entry without `=` yields nothing. -/
def parseExtraTag (kv : String) : Option (String × String) :=
  if kv.data.contains '=' then
    some (pyStrip (splitEqKey kv), pyStrip (splitEqVal kv))
  else Option.none

/-- The `extra_tags` dict built by `build_tags` from the `--tag` entries. -/
def extraTagsOf (extras : List String) : List (String × String) :=
  extras.foldl (fun d kv =>
    match parseExtraTag kv with
    | some (k, v) => dictInsert d k v
    | Option.none => d) []

/-- Python `needle in hay` on strings: substring at any offset. -/
def containsSub (needle hay : List Char) : Bool :=
  (List.range (hay.length + 1)).any (fun i => needle.isPrefixOf (hay.drop i))

/-- Embedding of `build_tags` (govee_h5075_influx.py lines 107–121).  The
module-level `HOSTNAME` (captured once from `socket.gethostname()`) is the
explicit `hostname` argument.  Tag values are `Option String` because the
`model` tag may be `None` (the encoder then skips it). -/
def build_tags (hostname name mac : String) (extras : List String) :
    List (String × Option String) :=
  let extra_tags := extraTagsOf extras
  let model : Option String :=
    if containsSub "5075".data name.data then some "H5075" else Option.none
  let base : List (String × Option String) :=
    [("sensor", some (if name = "" then mac else name)),
     ("mac", some mac),
     ("host", some hostname),
     ("model", model)]
  extra_tags.foldl (fun d kv => dictInsert d kv.1 (some kv.2)) base

/-- Python `a or b` for strings with `a` optional: `b` when `a` is `None`
or empty. -/
def pyOrStr (a : Option String) (b : String) : String :=
  match a with
  | some s => if s = "" then b else s
  | Option.none => b

/-- Python `round(x, 3)` on an exact value: round half to even at the
third decimal. -/
def round3 (x : ℚ) : ℚ :=
  let y := x * 1000
  let n := Rat.floor y
  let f := y - n
  ((if f < 1 / 2 then n
    else if 1 / 2 < f then n + 1
    else if n % 2 = 0 then n else n + 1 : ℤ) : ℚ) / 1000

/-- `payload.hex().upper()`: two uppercase hex digits per byte. -/
def hexDigitUpper (n : ℕ) : Char :=
  if n < 10 then Char.ofNat (48 + n) else Char.ofNat (55 + n)

def hexUpper (payload : List ℕ) : String :=
  String.mk (payload.flatMap (fun b => [hexDigitUpper (b / 16), hexDigitUpper (b % 16)]))

/-- The Govee manufacturer company ID key. -/
def KEY_EC88 : ℕ := 0xEC88

/-- One advertisement event as seen by the `scan_once` callback: optional
advertised local name, optional device name, device address, optional RSSI,
manufacturer-data mapping, and the wall-clock capture time in nanoseconds
(`time.time_ns()` at callback time). -/
structure AdvEvent where
  local_name : Option String
  dev_name : Option String
  address : String
  rssi : Option ℤ
  manufacturer_data : List (ℕ × List ℕ)
  ts_ns : ℤ

/-- Dictionary lookup `man[KEY_EC88]` (with the `KEY_EC88 not in man`
guard). -/
def lookupKey (k : ℕ) (m : List (ℕ × List ℕ)) : Option (List ℕ) :=
  (m.find? (fun p => p.1 == k)).map (fun p => p.2)

/-- The fields dict built in the callback (lines 138–145): `temp_c` and
`humidity_pct` rounded to 3 decimals, optional `battery_pct` and
`rssi_dbm`, and `payload_hex` only under `--print-raw`. -/
def composeFields (t_c rh : ℚ) (batt : Option ℕ) (rssi : Option ℤ)
    (print_raw : Bool) (payload : List ℕ) : List (String × FieldValue) :=
  [("temp_c", FieldValue.f true (round3 t_c)),
   ("humidity_pct", FieldValue.f true (round3 rh)),
   ("battery_pct", match batt with
     | some b => FieldValue.i b
     | Option.none => FieldValue.none),
   ("rssi_dbm", match rssi with
     | some r => FieldValue.i r
     | Option.none => FieldValue.none)]
  ++ (if print_raw then [("payload_hex", FieldValue.s (hexUpper payload))] else [])

/-- The callback body `cb` of `scan_once` (lines 126–150) for one event:
skip events without the EC88 key, skip undecodable payloads, compose tags
and fields, encode, and return the line only when it is non-empty. -/
def processEvent (hostname measurement : String) (extra_tags : List String)
    (print_raw : Bool) (e : AdvEvent) : Option String :=
  let name := pyOrStr e.local_name (pyOrStr e.dev_name "")
  match lookupKey KEY_EC88 e.manufacturer_data with
  | Option.none => Option.none
  | some payload =>
    match decode_packed_24 payload with
    | Option.none => Option.none
    | some (t_c, rh, batt) =>
      let tags := build_tags hostname name e.address extra_tags
      let fields := composeFields t_c rh batt e.rssi print_raw payload
      let lp := to_line_protocol measurement tags fields e.ts_ns
      if lp = "" then Option.none else some lp

/-- Embedding of the batch accumulation of `scan_once` (lines 123–159):
the lines appended by the callback over the window's events, in order. -/
def scan_once (hostname measurement : String) (extra_tags : List String)
    (print_raw : Bool) (events : List AdvEvent) : List String :=
  events.foldl (fun lines e =>
    match processEvent hostname measurement extra_tags print_raw e with
    | some lp => lines ++ [lp]
    | Option.none => lines) []

lemma assembled_ne_empty (x y z : String) : x ++ " " ++ y ++ " " ++ z ≠ "" := by
  intro h
  have hlen := congrArg String.length h
  simp only [String.length_append] at hlen
  have hsp : (" " : String).length = 1 := rfl
  have h0 : ("" : String).length = 0 := rfl
  rw [hsp, h0] at hlen
  omega

lemma to_line_protocol_eq_empty_iff (m : String) (tags : List (String × Option String))
    (fields : List (String × FieldValue)) (ts : ℤ) :
    to_line_protocol m tags fields ts = "" ↔ fields.filterMap fieldText = [] := by
  by_cases h : fields.filterMap fieldText = []
  · simp [to_line_protocol, h]
  · simp only [to_line_protocol, h, if_false, iff_false]
    exact assembled_ne_empty _ _ _

lemma processEvent_some_ne_empty (hostname measurement : String)
    (extra_tags : List String) (print_raw : Bool) (e : AdvEvent) (l : String) :
    processEvent hostname measurement extra_tags print_raw e = some l → l ≠ "" := by
  intro h
  unfold processEvent at h
  cases hk : lookupKey KEY_EC88 e.manufacturer_data with
  | none => rw [hk] at h; simp at h
  | some payload =>
    rw [hk] at h
    dsimp only at h
    cases hd : decode_packed_24 payload with
    | none => rw [hd] at h; simp at h
    | some trip =>
      rw [hd] at h
      obtain ⟨t_c, rh, batt⟩ := trip
      dsimp only at h
      split at h
      · simp at h
      · rename_i hlp
        have hl := Option.some.inj h
        exact hl ▸ hlp

lemma scan_once_foldl_eq (hostname measurement : String) (extra_tags : List String)
    (print_raw : Bool) :
    ∀ (events : List AdvEvent) (init : List String),
      events.foldl (fun lines e =>
        match processEvent hostname measurement extra_tags print_raw e with
        | some lp => lines ++ [lp]
        | Option.none => lines) init
      = init ++ events.filterMap (processEvent hostname measurement extra_tags print_raw) := by
  intro events
  induction events with
  | nil => intro init; simp
  | cons e es ih =>
    intro init
    rw [List.foldl_cons, List.filterMap_cons]
    cases hp : processEvent hostname measurement extra_tags print_raw e with
    | none => rw [ih]
    | some lp => rw [ih]; simp

/-- C6: the encoder returns the empty string exactly when no field survives
filtering (all values absent or non-finite floats), and the scan-window
accumulator never places such an empty result into a batch: every line of
a batch is non-empty (by the iff, it carries at least one emitted field). -/
theorem encoder_empty_iff_no_fields_and_batch_nonempty :
    (∀ (m : String) (tags : List (String × Option String))
       (fields : List (String × FieldValue)) (ts : ℤ),
       to_line_protocol m tags fields ts = "" ↔ fields.filterMap fieldText = []) ∧
    (∀ (hostname measurement : String) (extra_tags : List String)
       (print_raw : Bool) (events : List AdvEvent) (l : String),
       l ∈ scan_once hostname measurement extra_tags print_raw events → l ≠ "") := by
  refine ⟨to_line_protocol_eq_empty_iff, ?_⟩
  intro hostname measurement extra_tags print_raw events l hl
  rw [scan_once, scan_once_foldl_eq] at hl
  simp only [List.nil_append] at hl
  obtain ⟨e, _, hpe⟩ := List.mem_filterMap.mp hl
  exact processEvent_some_ne_empty hostname measurement extra_tags print_raw e l hpe

theorem encoder_empty_iff_no_fields_and_batch_nonempty_witness :
    to_line_protocol "m" [("sensor", some "Office")]
      [("a", FieldValue.none), ("b", FieldValue.f false 0)] 0 = "" ∧
    "" ∉ scan_once "host" "m" [] false
      [⟨some "GVH5075", Option.none, "AA:BB", some (-50),
        [(KEY_EC88, [0, 1, 63, 145, 100])], 1000⟩] :=
  ⟨(encoder_empty_iff_no_fields_and_batch_nonempty.1 "m" [("sensor", some "Office")]
      [("a", FieldValue.none), ("b", FieldValue.f false 0)] 0).mpr (by decide),
   fun hmem => encoder_empty_iff_no_fields_and_batch_nonempty.2 "host" "m" [] false
      [⟨some "GVH5075", Option.none, "AA:BB", some (-50),
        [(KEY_EC88, [0, 1, 63, 145, 100])], 1000⟩] "" hmem rfl⟩

lemma extraTagsOf_skip (pre post : List String) (kv : String)
    (h : kv.data.contains '=' = false) :
    extraTagsOf (pre ++ kv :: post) = extraTagsOf (pre ++ post) := by
  unfold extraTagsOf
  rw [List.foldl_append, List.foldl_append, List.foldl_cons]
  have hp : parseExtraTag kv = Option.none := by
    unfold parseExtraTag
    rw [h]
    simp
  rw [hp]

lemma extraTagsOf_snoc (extras : List String) (kv : String)
    (h : kv.data.contains '=' = true) :
    extraTagsOf (extras ++ [kv]) =
      dictInsert (extraTagsOf extras) (pyStrip (splitEqKey kv))
        (pyStrip (splitEqVal kv)) := by
  unfold extraTagsOf
  rw [List.foldl_append, List.foldl_cons, List.foldl_nil]
  have hp : parseExtraTag kv =
      some (pyStrip (splitEqKey kv), pyStrip (splitEqVal kv)) := by
    unfold parseExtraTag
    rw [h]
    simp
  rw [hp]

/-- C10: in `build_tags`, a `--tag` entry without `=` is silently ignored —
it contributes nothing and leaves every other tag unchanged — while an
entry with `=` is split at the first `=`, both halves stripped of
surrounding whitespace, and assigned into the extra-tag dict. -/
theorem build_tags_extra_entries :
    (∀ (hostname name mac : String) (pre post : List String) (kv : String),
       kv.data.contains '=' = false →
       build_tags hostname name mac (pre ++ kv :: post) =
         build_tags hostname name mac (pre ++ post)) ∧
    (∀ (extras : List String) (kv : String),
       kv.data.contains '=' = true →
       extraTagsOf (extras ++ [kv]) =
         dictInsert (extraTagsOf extras) (pyStrip (splitEqKey kv))
           (pyStrip (splitEqVal kv))) := by
  constructor
  · intro hostname name mac pre post kv h
    unfold build_tags
    rw [extraTagsOf_skip pre post kv h]
  · exact extraTagsOf_snoc

theorem build_tags_extra_entries_witness :
    ("room" : String).data.contains '=' = false ∧
    ("k=v" : String).data.contains '=' = true ∧
    build_tags "h" "name" "mac" (["a=1"] ++ "room" :: []) =
      build_tags "h" "name" "mac" (["a=1"] ++ []) ∧
    extraTagsOf ([] ++ ["k=v"]) =
      dictInsert (extraTagsOf []) (pyStrip (splitEqKey "k=v"))
        (pyStrip (splitEqVal "k=v")) :=
  ⟨by decide, by decide,
   build_tags_extra_entries.1 "h" "name" "mac" ["a=1"] [] "room" (by decide),
   build_tags_extra_entries.2 [] "k=v" (by decide)⟩

/-- The observable outcome of one POST attempt in `write_v2`: either the
call itself raised (connection error, timeout) or a response with some
status code came back. -/
inductive AttemptOutcome
  | transport
  | status (code : ℕ)
deriving DecidableEq

/-- How the `write_v2` loop ended: a silent `return` after a response
(status 204, or any status `raise_for_status` does not raise for), the
final-attempt failure path (error printed, normal return), or — only when
`max_retries = 0` — falling off the empty loop. -/
inductive WriteOutcome
  | returned (code : ℕ)
  | failureLogged
  | noAttempt
deriving DecidableEq

/-- Whether the attempt body raises: a transport failure always does, and
`requests.Response.raise_for_status` raises exactly for status codes in
`[400, 600)`. -/
def isRetryable : AttemptOutcome → Bool
  | .transport => true
  | .status c => decide (400 ≤ c ∧ c < 600)

/-- Embedding of the loop of `write_v2` (govee_h5075_influx.py lines
87–104).  `ep attempt` is the outcome of the POST on the zero-based
`attempt`; `jitter attempt` models that attempt's `random.random()`.  The
request URL, parameters, headers and body do not influence the control
flow and are not modelled.  Returns the number of attempts performed, the
loop outcome, and the list of back-off sleeps between consecutive
attempts. -/
def write_v2_aux (ep : ℕ → AttemptOutcome) (jitter : ℕ → ℚ) :
    ℕ → ℕ → ℕ × WriteOutcome × List ℚ
  | 0, _ => (0, .noAttempt, [])
  | rem + 1, attempt =>
    let retry : ℕ × WriteOutcome × List ℚ :=
      if rem = 0 then (1, .failureLogged, [])
      else
        let r := write_v2_aux ep jitter rem (attempt + 1)
        (r.1 + 1, r.2.1, min 30 ((2 ^ attempt : ℚ) + jitter attempt) :: r.2.2)
    match ep attempt with
    | .transport => retry
    | .status c =>
      if c = 204 then (1, .returned 204, [])
      else if 400 ≤ c ∧ c < 600 then retry
      else (1, .returned c, [])

/-- `write_v2` itself: the loop over `range(max_retries)`. -/
def write_v2 (ep : ℕ → AttemptOutcome) (jitter : ℕ → ℚ) (max_retries : ℕ) :
    ℕ × WriteOutcome × List ℚ :=
  write_v2_aux ep jitter max_retries 0

lemma write_v2_aux_204 (ep : ℕ → AttemptOutcome) (jitter : ℕ → ℚ) (rem attempt : ℕ)
    (h : ep attempt = .status 204) :
    write_v2_aux ep jitter (rem + 1) attempt = (1, .returned 204, []) := by
  simp [write_v2_aux, h]

lemma write_v2_aux_return (ep : ℕ → AttemptOutcome) (jitter : ℕ → ℚ)
    (rem attempt c : ℕ) (h : ep attempt = .status c)
    (hc : ¬ (400 ≤ c ∧ c < 600)) :
    write_v2_aux ep jitter (rem + 1) attempt = (1, .returned c, []) := by
  by_cases h204 : c = 204
  · subst h204
    simp [write_v2_aux, h]
  · simp [write_v2_aux, h, h204, hc]

lemma write_v2_aux_retry (ep : ℕ → AttemptOutcome) (jitter : ℕ → ℚ)
    (rem attempt : ℕ) (h : isRetryable (ep attempt) = true) (hrem : 1 ≤ rem) :
    write_v2_aux ep jitter (rem + 1) attempt =
      ((write_v2_aux ep jitter rem (attempt + 1)).1 + 1,
       (write_v2_aux ep jitter rem (attempt + 1)).2.1,
       min 30 ((2 ^ attempt : ℚ) + jitter attempt)
         :: (write_v2_aux ep jitter rem (attempt + 1)).2.2) := by
  have h0 : ¬ rem = 0 := by omega
  cases hep : ep attempt with
  | transport => simp [write_v2_aux, hep, h0]
  | status c =>
    have hc : 400 ≤ c ∧ c < 600 := by simpa [isRetryable, hep] using h
    have h204 : ¬ c = 204 := by omega
    simp [write_v2_aux, hep, h204, hc, h0]

lemma write_v2_aux_final (ep : ℕ → AttemptOutcome) (jitter : ℕ → ℚ)
    (attempt : ℕ) (h : isRetryable (ep attempt) = true) :
    write_v2_aux ep jitter 1 attempt = (1, .failureLogged, []) := by
  cases hep : ep attempt with
  | transport => simp [write_v2_aux, hep]
  | status c =>
    have hc : 400 ≤ c ∧ c < 600 := by simpa [isRetryable, hep] using h
    have h204 : ¬ c = 204 := by omega
    simp [write_v2_aux, hep, h204, hc]

/-- C2 counterexample: an endpoint answering HTTP 200 ends the loop after
exactly one attempt with a silent return — a response status other than
204 terminated the loop as success and was not retried. -/
theorem write_v2_status_200_ends_loop :
    write_v2 (fun _ => .status 200) (fun _ => 0) 3 =
      (1, WriteOutcome.returned 200, []) ∧ (200 : ℕ) ≠ 204 := by
  exact ⟨by decide, by decide⟩

/-- C2 amended: for every attempt of the loop — an HTTP 204 response ends
it immediately as success; a transport failure or a response status in
[400, 600) is retryable, consumes exactly one attempt (the final attempt
logging the error and returning normally); but every response status
outside [400, 600), not only 204, also ends the loop immediately as a
silent success return. -/
theorem write_v2_attempt_semantics (ep : ℕ → AttemptOutcome) (jitter : ℕ → ℚ)
    (rem attempt : ℕ) :
    (ep attempt = .status 204 →
      write_v2_aux ep jitter (rem + 1) attempt = (1, .returned 204, [])) ∧
    (∀ c, ep attempt = .status c → ¬ (400 ≤ c ∧ c < 600) →
      write_v2_aux ep jitter (rem + 1) attempt = (1, .returned c, [])) ∧
    (isRetryable (ep attempt) = true → 1 ≤ rem →
      write_v2_aux ep jitter (rem + 1) attempt =
        ((write_v2_aux ep jitter rem (attempt + 1)).1 + 1,
         (write_v2_aux ep jitter rem (attempt + 1)).2.1,
         min 30 ((2 ^ attempt : ℚ) + jitter attempt)
           :: (write_v2_aux ep jitter rem (attempt + 1)).2.2)) ∧
    (isRetryable (ep attempt) = true → rem = 0 →
      write_v2_aux ep jitter (rem + 1) attempt = (1, .failureLogged, [])) :=
  ⟨write_v2_aux_204 ep jitter rem attempt,
   fun c => write_v2_aux_return ep jitter rem attempt c,
   write_v2_aux_retry ep jitter rem attempt,
   fun h h0 => by subst h0; exact write_v2_aux_final ep jitter attempt h⟩

theorem write_v2_attempt_semantics_witness :
    isRetryable ((fun _ : ℕ => AttemptOutcome.status 500) 0) = true ∧
    write_v2_aux (fun _ => AttemptOutcome.status 500) (fun _ => 0) (0 + 1) 0 =
      (1, WriteOutcome.failureLogged, []) :=
  ⟨by decide,
   (write_v2_attempt_semantics (fun _ => AttemptOutcome.status 500)
      (fun _ => 0) 0 0).2.2.2 (by decide) rfl⟩

lemma write_v2_aux_all_retry (ep : ℕ → AttemptOutcome) (jitter : ℕ → ℚ) :
    ∀ (rem attempt : ℕ), 1 ≤ rem →
      (∀ i, i < rem → isRetryable (ep (attempt + i)) = true) →
      write_v2_aux ep jitter rem attempt =
        (rem, .failureLogged,
         (List.range (rem - 1)).map
           (fun i => min 30 ((2 ^ (attempt + i) : ℚ) + jitter (attempt + i)))) := by
  intro rem
  induction rem with
  | zero => intro attempt h; omega
  | succ k ih =>
    intro attempt _ hall
    cases Nat.eq_zero_or_pos k with
    | inl hk =>
      subst hk
      have h0 := hall 0 (by omega)
      rw [Nat.add_zero] at h0
      rw [write_v2_aux_final ep jitter attempt h0]
      simp
    | inr hk =>
      have h0 := hall 0 (by omega)
      rw [Nat.add_zero] at h0
      rw [write_v2_aux_retry ep jitter k attempt h0 hk]
      rw [ih (attempt + 1) hk (fun i hi => by
        have hh := hall (i + 1) (by omega)
        rwa [show attempt + (i + 1) = attempt + 1 + i from by omega] at hh)]
      have hlist :
          (List.range (k + 1 - 1)).map
              (fun i => min 30 ((2 ^ (attempt + i) : ℚ) + jitter (attempt + i)))
            = min 30 ((2 ^ attempt : ℚ) + jitter attempt)
              :: (List.range (k - 1)).map
                (fun i => min 30 ((2 ^ (attempt + 1 + i) : ℚ) + jitter (attempt + 1 + i))) := by
        have hk1 : k + 1 - 1 = (k - 1) + 1 := by omega
        rw [hk1, List.range_succ_eq_map, List.map_cons, List.map_map]
        congr 1
        refine List.map_congr_left ?_
        intro i _
        have hadd : attempt + Nat.succ i = attempt + 1 + i := by omega
        simp [Function.comp, hadd]
      rw [hlist]

/-- C4: when the endpoint never yields 204 — every attempt raises, i.e. is
a transport failure or an error status in [400, 600) — the loop performs
exactly `max_retries` attempts, sleeping `min(30, 2^attempt + jitter)`
between consecutive attempts with `attempt` the zero-based index, then
logs the failure and returns normally (no exception escapes). -/
theorem write_v2_exhausts_retries (ep : ℕ → AttemptOutcome) (jitter : ℕ → ℚ)
    (max_retries : ℕ) (h1 : 1 ≤ max_retries)
    (hall : ∀ i, i < max_retries → isRetryable (ep i) = true) :
    write_v2 ep jitter max_retries =
      (max_retries, .failureLogged,
       (List.range (max_retries - 1)).map
         (fun i => min 30 ((2 ^ i : ℚ) + jitter i))) := by
  have h := write_v2_aux_all_retry ep jitter max_retries 0 h1
    (fun i hi => by simpa using hall i hi)
  simpa [write_v2] using h

theorem write_v2_exhausts_retries_witness :
    1 ≤ 3 ∧ (∀ i, i < 3 → isRetryable ((fun _ : ℕ => AttemptOutcome.transport) i) = true) ∧
    write_v2 (fun _ => AttemptOutcome.transport) (fun _ => (1 : ℚ) / 2) 3 =
      (3, WriteOutcome.failureLogged,
       (List.range 2).map (fun i => min 30 ((2 ^ i : ℚ) + (1 : ℚ) / 2))) :=
  ⟨by decide, fun i _ => rfl,
   write_v2_exhausts_retries (fun _ => AttemptOutcome.transport)
     (fun _ => (1 : ℚ) / 2) 3 (by decide) (fun i _ => rfl)⟩

/-- Calls on the radio listener handle observable from `scan_once`. -/
inductive ListenerEvent
  | start
  | stop
deriving DecidableEq, BEq

/-- The exception interrupting the window (`CancelledError` /
`KeyboardInterrupt` delivered during `asyncio.sleep`). -/
inductive ScanExn
  | cancelled
deriving DecidableEq

/-- `await asyncio.sleep(seconds)`: completes, or raises when the window
is interrupted. -/
def sleepResult (interrupted : Bool) : Except ScanExn Unit :=
  if interrupted then .error .cancelled else .ok ()

/-- Trace semantics of Python `try: body finally: fin`: the finaliser's
trace always runs after the body's; an exception raised by the finaliser
replaces the body's outcome, otherwise the body's outcome stands. -/
def tryFinallyTrace (body fin : List ListenerEvent × Except ScanExn Unit) :
    List ListenerEvent × Except ScanExn Unit :=
  (body.1 ++ fin.1,
   match fin.2 with
   | .error e => .error e
   | .ok _ => body.2)

/-- The listener trace of `scan_once` (lines 152–157): `await
scanner.start()`, then `try: await asyncio.sleep(seconds) finally: await
scanner.stop()`, for a window that either completes or is interrupted. -/
def scan_once_listener_trace (interrupted : Bool) :
    List ListenerEvent × Except ScanExn Unit :=
  let rest := tryFinallyTrace ([], sleepResult interrupted) ([.stop], .ok ())
  (ListenerEvent.start :: rest.1, rest.2)

/-- C7: on both exit paths of the scan window — normal completion and
external interruption during the window — the listener's `stop` is invoked
exactly once for each `start` (and `start` exactly once), so no active
scan session leaks; on interruption the exception still propagates only
after `stop` has run. -/
theorem scan_once_stop_matches_start :
    ∀ interrupted : Bool,
      ((scan_once_listener_trace interrupted).1.count ListenerEvent.stop =
        (scan_once_listener_trace interrupted).1.count ListenerEvent.start) ∧
      (scan_once_listener_trace interrupted).1.count ListenerEvent.start = 1 ∧
      (scan_once_listener_trace true).2 = .error .cancelled := by
  intro interrupted
  cases interrupted <;> exact ⟨rfl, rfl, rfl⟩
